import Mathlib

/-!
Shallow embedding of the contribution-aggregation engine of
`akirak/contributors` (src/main.go) and verification of the frozen claims.

Conventions of the embedding:
* Go strings become Lean `String` (in Lean 4.14 a `String` wraps a
  `List Char`, so character-level regexp behaviour is modelled on `.data`).
* The two external subprocesses (`linguist`, `git blame`) are out of scope;
  the observable behaviour of one `git blame` invocation is a `BlameRun`
  value and the blame source is a function `String → BlameRun` passed in.
* `float64` percentages are modelled as exact rationals `ℚ`; the claims
  checked here are not about rounding.
* Go maps are modelled as association lists updated in place (first match);
  map iteration order is unspecified in Go, and every claim proved below is
  invariant under the order in which map entries are listed.
-/

namespace Contributors

/-- The character class `\s` of Go's RE2 engine: `[\t\n\f\r ]`. -/
def goIsSpace (c : Char) : Bool :=
  c == ' ' || c == '\t' || c == '\n' || c == '\x0C' || c == '\r'

/-- Indices of `'@'` inside a character list (used to model the greedy
regexp `^.+@` of `stripDomain` in src/main.go). -/
def findAts (s : List Char) : List Nat :=
  (List.range s.length).filter (fun i => s.getD i ' ' == '@')

/-- `stripDomain` (src/main.go): `regexp.Compile("^.+@")` followed by
`re.FindString(email)`.  The anchored greedy match returns the longest
prefix `s.take (k+1)` such that `s[k] = '@'`, at least one character
precedes the `'@'`, and no newline occurs among the preceding characters
(RE2's `.` does not match `'\n'`); if no such `k` exists the regexp does
not match and `FindString` returns the empty string. -/
def stripDomain (s : List Char) : List Char :=
  match ((findAts s).filter
      (fun i => decide (1 ≤ i) && (s.take i).all (fun c => !(c == '\n')))).getLast? with
  | some k => s.take (k + 1)
  | none => []

/-- The `Contribution` struct of src/main.go.  `Nlines` is a line count
(always non-negative in Go as well), `Percentage` is the `float64` field
modelled as an exact rational. -/
structure Contribution where
  Email : String
  Nlines : Nat
  Percentage : ℚ
deriving DecidableEq

/-- The sort order installed by `Contributions.Less` in src/main.go:
`a[i].Nlines > a[j].Nlines`, i.e. non-increasing line counts. -/
def contribGE (a b : Contribution) : Prop := b.Nlines ≤ a.Nlines

instance : DecidableRel contribGE := fun a b => Nat.decLe b.Nlines a.Nlines

instance : IsTotal Contribution contribGE :=
  ⟨fun a b => (Nat.le_total b.Nlines a.Nlines).imp id id⟩

instance : IsTrans Contribution contribGE :=
  ⟨fun _ _ _ h1 h2 => le_trans h2 h1⟩

/-- `sort.Sort(Contributions(result))`: a correct (unstable) sort for the
`Less` order; modelled by insertion sort, one valid outcome of `sort.Sort`. -/
def sortContribs (l : List Contribution) : List Contribution :=
  List.insertionSort contribGE l

/-- One `git blame --line-porcelain` invocation as observed by
`getContributions` (src/main.go).  The code ignores `startOk` (the result
of `cmd.Start()` is discarded) and `exitOk` (the process is never
`Wait`ed on); it only consumes the stdout lines and the scanner error. -/
structure BlameRun where
  startOk : Bool
  exitOk : Bool
  outputLines : List String
  scanErr : Bool

/-- The per-line regexp of `getContributions`: `^author-mail <(.+)>`.
Returns the capture group when the line matches: the line must start with
`"author-mail <"`, and the greedy group extends to the last `'>'` that has
at least one (non-newline) character before it. -/
def parseAuthorLine (l : List Char) : Option (List Char) :=
  let pfx : List Char := "author-mail <".data
  if l.take pfx.length == pfx then
    let rest := l.drop pfx.length
    match ((List.range rest.length).filter
        (fun j => decide (1 ≤ j) && rest.getD j ' ' == '>'
          && (rest.take j).all (fun c => !(c == '\n')))).getLast? with
    | some j => some (rest.take j)
    | none => none
  else none

/-- Go map upsert `m[author] = n + k` / `m[author] = k` when absent
(association-list model). -/
def bumpCountBy (m : List (String × Nat)) (author : String) (k : Nat) :
    List (String × Nat) :=
  match m with
  | [] => [(author, k)]
  | (b, n) :: rest =>
    if b == author then (b, n + k) :: rest
    else (b, n) :: bumpCountBy rest author k

/-- The body of the scanner loop of `getContributions`: a line matching
the author regexp bumps that author's counter and the running total. -/
def processLine (st : List (String × Nat) × Nat) (line : String) :
    List (String × Nat) × Nat :=
  match parseAuthorLine line.data with
  | some author => (bumpCountBy st.1 (String.mk author) 1, st.2 + 1)
  | none => st

/-- The per-file loop of `getContributions`: scan each file's blame
output; after scanning, a scanner I/O error aborts with an error (the Go
message is `"Error from scanner: %v"`).  Start failures and exit statuses
of the subprocess are never consulted — exactly as in src/main.go. -/
def collectFiles (blame : String → BlameRun) :
    List String → List (String × Nat) × Nat →
    Except String (List (String × Nat) × Nat)
  | [], st => .ok st
  | f :: fs, st =>
    let st2 := (blame f).outputLines.foldl processLine st
    if (blame f).scanErr then .error "Error from scanner"
    else collectFiles blame fs st2

/-- Build one `Contribution` record from a map entry, with
`Percentage = Nlines / totalLines * 100` (the loop bodies at the end of
`getContributions` and in the middle of `peopleProfile`, src/main.go). -/
def mkContribution (totalLines : Nat) (p : String × Nat) : Contribution :=
  { Email := p.1, Nlines := p.2,
    Percentage := (p.2 : ℚ) / (totalLines : ℚ) * 100 }

/-- `getContributions` (src/main.go): accumulate author line counts over
all files, then build `Contribution` records with
`Percentage = Nlines / totalLines * 100` and sort them. -/
def getContributions (blame : String → BlameRun) (files : List String) :
    Except String (List Contribution × Nat) :=
  match collectFiles blame files ([], 0) with
  | .error e => .error e
  | .ok (m, totalLines) =>
    .ok (sortContribs (m.map (mkContribution totalLines)), totalLines)

/-- The `LanguageStat` struct of src/main.go. -/
structure LanguageStat where
  Language : String
  Files : List String
  TotalLines : Nat
  Contributions : List Contribution

/-- The skip regexp of `getIgnoreSettings` (src/main.go):
`^(\s*#|\s+$)`.  It matches a line that starts with optional whitespace
followed by `'#'` (`^\s*#`), or a line of one-or-more whitespace
characters and nothing else (`^\s+$`).  The empty line matches neither
alternative. -/
def ignoreLineMatches (l : List Char) : Bool :=
  ((List.range l.length).any
    (fun k => (l.take k).all goIsSpace && l.getD k 'a' == '#'))
  || (decide (1 ≤ l.length) && l.all goIsSpace)

/-- The scanner loop of `getIgnoreSettings` (src/main.go): keep exactly
the lines the skip regexp does not match, in order.  (The file-system
part — a missing `.contribignore` yields the empty pattern list — is I/O
plumbing; the lines of the existing file are the input here.) -/
def getIgnoreSettings (lines : List String) : List String :=
  lines.filter (fun l => !ignoreLineMatches l.data)

/-- Spec-side description of a comment line: the first non-whitespace
character is `'#'`. -/
def isCommentLine (l : List Char) : Bool :=
  match l.dropWhile goIsSpace with
  | [] => false
  | c :: _ => c == '#'

/-- `true` exactly on `Except.ok true` (the branch `if x` taken on a
successful `doublestar.Match`). -/
def isOkTrue : Except String Bool → Bool
  | .ok true => true
  | _ => false

/-- The inner pattern loop of `excludeWithGlob` (src/main.go): try the
patterns in order against one file, propagating the first match error and
short-circuiting on the first match.  `doublestarMatch` abstracts the
external `doublestar.Match`. -/
def matchAny (doublestarMatch : String → String → Except String Bool)
    (patterns : List String) (file : String) : Except String Bool :=
  match patterns with
  | [] => .ok false
  | p :: ps =>
    match doublestarMatch p file with
    | .error e => .error e
    | .ok true => .ok true
    | .ok false => matchAny doublestarMatch ps file

/-- `excludeWithGlob` (src/main.go): keep the files matched by no ignore
pattern, in their original order; a match error aborts the whole call. -/
def excludeWithGlob (doublestarMatch : String → String → Except String Bool)
    (ignorePatterns files : List String) : Except String (List String) :=
  match files with
  | [] => .ok []
  | f :: fs =>
    match matchAny doublestarMatch ignorePatterns f with
    | .error e => .error e
    | .ok true => excludeWithGlob doublestarMatch ignorePatterns fs
    | .ok false =>
      match excludeWithGlob doublestarMatch ignorePatterns fs with
      | .error e => .error e
      | .ok rest => .ok (f :: rest)

/-- One row of a rendered contributor table (`peopleProfile` /
`languageStat` in src/main.go): either an individually listed person
(e-mail title, visible identity cell, line count, percentage value) or
the synthetic `"N others"` row. -/
inductive Row where
  | person (email : String) (identity : String) (nlines : Nat) (percentage : ℚ)
  | others (n : Nat) (percentage : ℚ)
deriving DecidableEq

/-- The shared emit-or-collapse loop of `peopleProfile` and
`languageStat` (src/main.go): walk the contributions; on the first entry
that satisfies the threshold predicate *and* is not the last entry, stop
and record `numContributors - i` as the remaining count.  Returns the
individually emitted entries and that remaining count (0 when no break
occurred). -/
def renderRows (pred : Contribution → Bool) :
    List Contribution → List Contribution × Nat
  | [] => ([], 0)
  | [c] => ([c], 0)
  | c :: c2 :: rest =>
    if pred c then ([], (c2 :: rest).length + 1)
    else
      let p := renderRows pred (c2 :: rest)
      (c :: p.1, p.2)

/-- The rendered table body of `peopleProfile` / `languageStat`
(src/main.go): one `Row.person` per emitted entry (the identity cell is
`stripDomain` of the e-mail), followed by one `Row.others` row exactly
when the loop broke, carrying the remaining count and
`remainingPercentage` (100 minus the successively subtracted emitted
percentages). -/
def renderTable (pred : Contribution → Bool) (cs : List Contribution) :
    List Row :=
  let er := renderRows pred cs
  (er.1.map (fun c =>
      Row.person c.Email (String.mk (stripDomain c.Email.data))
        c.Nlines c.Percentage))
  ++ (if 0 < er.2 then
        [Row.others er.2 (er.1.foldl (fun acc c => acc - c.Percentage) 100)]
      else [])

/-- Recognize the synthetic `"N others"` row. -/
def isOthers : Row → Bool
  | .others _ _ => true
  | _ => false

/-- Percentage cell of an individually listed person row. -/
def personPercentage : Row → Option ℚ
  | .person _ _ _ pct => some pct
  | .others _ _ => none

/-- Visible identity cell of an individually listed person row. -/
def personIdentity : Row → Option String
  | .person _ identity _ _ => some identity
  | .others _ _ => none

/-- The fixed collapse predicate of `peopleProfile` (src/main.go):
`nlines < 50 && percentage < 10`. -/
def peoplePred (c : Contribution) : Bool :=
  decide (c.Nlines < 50) && decide (c.Percentage < 10)

/-- The cross-author accumulation loop of `peopleProfile` (src/main.go):
every contribution record of every bucket adds its `Nlines` to the
per-identity accumulator, ignoring language. -/
def rollupMap (stats : List LanguageStat) : List (String × Nat) :=
  stats.foldl
    (fun m stat =>
      stat.Contributions.foldl (fun m c => bumpCountBy m c.Email c.Nlines) m)
    []

/-- The grand total of `peopleProfile` (src/main.go): the sum of every
bucket's `TotalLines`. -/
def grandTotal (stats : List LanguageStat) : Nat :=
  stats.foldl (fun acc s => acc + s.TotalLines) 0

/-- The global per-author contribution list built by `peopleProfile`
(src/main.go), with percentages relative to the grand total, sorted. -/
def peopleContributions (stats : List LanguageStat) : List Contribution :=
  sortContribs ((rollupMap stats).map (mkContribution (grandTotal stats)))

/-- The people table rendered by `peopleProfile` (src/main.go). -/
def peopleProfile (stats : List LanguageStat) : List Row :=
  renderTable peoplePred (peopleContributions stats)

/-- The per-language contributor table rendered by `languageStat`
(src/main.go): the collapse predicate is the single configurable bound
`nlines < config.Threshold` (a Go `int`, hence `Int` here). -/
def languageStat (threshold : Int) (stat : LanguageStat) : List Row :=
  renderTable (fun c => decide ((c.Nlines : Int) < threshold))
    stat.Contributions

/-- Sum of the counts held in a per-author accumulator. -/
def sumValues (m : List (String × Nat)) : Nat := (m.map Prod.snd).sum

/-- Concrete blame source in which the tool fails for `bad.go` (the
subprocess cannot start — or, equally, exits non-zero — so no stdout is
produced and the scanner sees a clean EOF) and succeeds for `good.go`. -/
def blameC1 : String → BlameRun := fun f =>
  if f == "good.go" then
    { startOk := true, exitOk := true,
      outputLines := ["author-mail <alice@x>", "author-mail <alice@x>"],
      scanErr := false }
  else
    { startOk := false, exitOk := false, outputLines := [], scanErr := false }

/-- Concrete successful blame source used by witnesses: three attributed
lines, two by alice and one by bob. -/
def blameW : String → BlameRun := fun _ =>
  { startOk := true, exitOk := true,
    outputLines := ["author-mail <alice@x>", "author-mail <alice@x>",
                    "author-mail <bob@y>"],
    scanErr := false }

/-- Concrete sorted contribution list used by renderer witnesses: two
major contributors and two below the people threshold. -/
def csW : List Contribution :=
  [{ Email := "a@x", Nlines := 100, Percentage := 50 },
   { Email := "b@x", Nlines := 80, Percentage := 40 },
   { Email := "c@x", Nlines := 10, Percentage := 5 },
   { Email := "d@x", Nlines := 10, Percentage := 5 }]

/-- Concrete result set used by the rollup witness: a Go bucket with two
authors and a Markdown bucket with one of them again. -/
def statsW : List LanguageStat :=
  [{ Language := "Go", Files := ["a.go"], TotalLines := 3,
     Contributions := [{ Email := "alice@x", Nlines := 2, Percentage := 200/3 },
                       { Email := "bob@y", Nlines := 1, Percentage := 100/3 }] },
   { Language := "Markdown", Files := ["r.md"], TotalLines := 1,
     Contributions := [{ Email := "bob@y", Nlines := 1, Percentage := 100 }] }]

/-- Concrete glob matcher used by the ignore-filter witness: a pattern
matches exactly the file equal to it, and matching never fails. -/
def mFnW : String → String → Except String Bool := fun p f => .ok (f == p)

/-! ### Lemmas about the per-author accumulator -/

theorem bumpCountBy_sum (m : List (String × Nat)) (a : String) (k : Nat) :
    sumValues (bumpCountBy m a k) = sumValues m + k := by
  induction m with
  | nil => simp [bumpCountBy, sumValues]
  | cons hd tl ih =>
    obtain ⟨b, n⟩ := hd
    by_cases hb : b == a
    · simp [bumpCountBy, hb, sumValues]
      omega
    · simp only [bumpCountBy, hb, if_false, Bool.false_eq_true, sumValues,
        List.map_cons, List.sum_cons] at ih ⊢
      omega

theorem bumpCountBy_pos (m : List (String × Nat)) (a : String) (k : Nat)
    (hm : ∀ v ∈ m.map Prod.snd, 1 ≤ v) (hk : 1 ≤ k) :
    ∀ v ∈ (bumpCountBy m a k).map Prod.snd, 1 ≤ v := by
  induction m with
  | nil =>
    simp [bumpCountBy]
    omega
  | cons hd tl ih =>
    obtain ⟨b, n⟩ := hd
    simp only [List.map_cons, List.mem_cons] at hm
    by_cases hb : b == a
    · simp only [bumpCountBy, hb, if_true, List.map_cons, List.mem_cons]
      rintro v (rfl | hv)
      · have := hm n (Or.inl rfl)
        omega
      · exact hm v (Or.inr hv)
    · simp only [bumpCountBy, hb, if_false, Bool.false_eq_true, List.map_cons,
        List.mem_cons]
      rintro v (rfl | hv)
      · exact hm _ (Or.inl rfl)
      · exact ih (fun w hw => hm w (Or.inr hw)) v hv

theorem foldl_processLine_sum (lines : List String)
    (st : List (String × Nat) × Nat) (h : sumValues st.1 = st.2) :
    sumValues (lines.foldl processLine st).1 = (lines.foldl processLine st).2 := by
  induction lines generalizing st with
  | nil => exact h
  | cons l ls ih =>
    apply ih
    unfold processLine
    cases parseAuthorLine l.data with
    | none => exact h
    | some author => simp [bumpCountBy_sum, h]

theorem foldl_processLine_pos (lines : List String)
    (st : List (String × Nat) × Nat) (h : ∀ v ∈ st.1.map Prod.snd, 1 ≤ v) :
    ∀ v ∈ (lines.foldl processLine st).1.map Prod.snd, 1 ≤ v := by
  induction lines generalizing st with
  | nil => exact h
  | cons l ls ih =>
    apply ih
    unfold processLine
    cases parseAuthorLine l.data with
    | none => exact h
    | some author => exact bumpCountBy_pos _ _ _ h (le_refl 1)

theorem collectFiles_ok_sum (blame : String → BlameRun) (files : List String) :
    ∀ (st : List (String × Nat) × Nat) (m : List (String × Nat)) (total : Nat),
    collectFiles blame files st = .ok (m, total) → sumValues st.1 = st.2 →
    sumValues m = total := by
  induction files with
  | nil =>
    intro st m total h hst
    simp only [collectFiles, Except.ok.injEq] at h
    subst h
    exact hst
  | cons f fs ih =>
    intro st m total h hst
    simp only [collectFiles] at h
    by_cases hscan : (blame f).scanErr
    · simp [hscan] at h
    · simp only [hscan, if_false, Bool.false_eq_true] at h
      exact ih _ m total h (foldl_processLine_sum _ _ hst)

theorem collectFiles_ok_pos (blame : String → BlameRun) (files : List String) :
    ∀ (st : List (String × Nat) × Nat) (m : List (String × Nat)) (total : Nat),
    collectFiles blame files st = .ok (m, total) →
    (∀ v ∈ st.1.map Prod.snd, 1 ≤ v) → ∀ v ∈ m.map Prod.snd, 1 ≤ v := by
  induction files with
  | nil =>
    intro st m total h hst
    simp only [collectFiles, Except.ok.injEq] at h
    subst h
    exact hst
  | cons f fs ih =>
    intro st m total h hst
    simp only [collectFiles] at h
    by_cases hscan : (blame f).scanErr
    · simp [hscan] at h
    · simp only [hscan, if_false, Bool.false_eq_true] at h
      exact ih _ m total h (foldl_processLine_pos _ _ hst)

theorem getContributions_ok (blame : String → BlameRun) (files : List String)
    (cs : List Contribution) (total : Nat)
    (h : getContributions blame files = .ok (cs, total)) :
    ∃ m : List (String × Nat),
      collectFiles blame files ([], 0) = .ok (m, total)
      ∧ cs = sortContribs (m.map (mkContribution total)) := by
  unfold getContributions at h
  cases hc : collectFiles blame files ([], 0) with
  | error e => rw [hc] at h; exact absurd h (by simp)
  | ok st =>
    obtain ⟨m, t⟩ := st
    rw [hc] at h
    simp only [Except.ok.injEq, Prod.mk.injEq] at h
    obtain ⟨hcs, ht⟩ := h
    subst ht
    exact ⟨m, rfl, hcs.symm⟩

/-! ### Claims about the attribution collector -/

/-- C1 (code bug): in `getContributions`, a failing blame invocation
(tool unavailable so the subprocess never starts, or the file is
untracked so the tool exits non-zero with empty stdout) does **not**
propagate as an error: the result of `cmd.Start()` is discarded and the
exit status is never checked, so the collector returns a successful
partial bucket built from the remaining files — here alice's 2 lines out
of a total of 2 — contradicting the claimed `AttributionError`
propagation. -/
theorem C1_blame_failure_swallowed :
    getContributions blameC1 ["good.go", "bad.go"]
      = .ok ([mkContribution 2 ("alice@x", 2)], 2)
    ∧ (mkContribution 2 ("alice@x", 2)).Nlines = 2
    ∧ (mkContribution 2 ("alice@x", 2)).Percentage = 100
    ∧ blameC1 "bad.go" = ⟨false, false, [], false⟩ := by
  refine ⟨rfl, rfl, ?_, rfl⟩
  norm_num [mkContribution]

/-- C2: for every blame source and file list on which the collector
succeeds, the sum of the `Nlines` fields over the returned contribution
records equals the returned total line count. -/
theorem C2_contributions_sum_eq_total (blame : String → BlameRun)
    (files : List String) (cs : List Contribution) (total : Nat)
    (h : getContributions blame files = .ok (cs, total)) :
    (cs.map Contribution.Nlines).sum = total := by
  obtain ⟨m, hc, hcs⟩ := getContributions_ok blame files cs total h
  have hperm : List.Perm (sortContribs (m.map (mkContribution total)))
      (m.map (mkContribution total)) := List.perm_insertionSort _ _
  have h1 : (cs.map Contribution.Nlines).sum
      = ((m.map (mkContribution total)).map Contribution.Nlines).sum := by
    rw [hcs]
    exact (hperm.map Contribution.Nlines).sum_eq
  have h2 : (m.map (mkContribution total)).map Contribution.Nlines
      = m.map Prod.snd := by
    rw [List.map_map]
    rfl
  rw [h1, h2]
  exact collectFiles_ok_sum blame files ([], 0) m total hc rfl

/-- Witness for C2 at a concrete blame source: alice has 2 lines and bob
1 line, and the collector reports a total of 3. -/
theorem C2_witness :
    (([mkContribution 3 ("alice@x", 2), mkContribution 3 ("bob@y", 1)]
      : List Contribution).map Contribution.Nlines).sum = 3 :=
  C2_contributions_sum_eq_total blameW ["f.go"] _ 3 rfl

/-- C8: every contribution sequence returned by the collector is sorted
non-increasingly by `Nlines`: each record's `Nlines` is at least the next
record's. -/
theorem C8_contributions_sorted (blame : String → BlameRun)
    (files : List String) (cs : List Contribution) (total : Nat)
    (h : getContributions blame files = .ok (cs, total)) :
    ∀ (i : Nat) (hi : i + 1 < cs.length),
      (cs.get ⟨i + 1, hi⟩).Nlines ≤ (cs.get ⟨i, by omega⟩).Nlines := by
  obtain ⟨m, hc, hcs⟩ := getContributions_ok blame files cs total h
  have hs : List.Sorted contribGE cs := by
    rw [hcs]
    exact List.sorted_insertionSort contribGE _
  intro i hi
  exact hs.rel_get_of_lt (by simp [Fin.lt_def])

/-- Witness for C8 at a concrete blame source: alice (2 lines) is listed
before bob (1 line), and each adjacent pair is non-increasing. -/
theorem C8_witness :
    (([mkContribution 3 ("alice@x", 2), mkContribution 3 ("bob@y", 1)]
      : List Contribution).get ⟨0 + 1, by decide⟩).Nlines
    ≤ (([mkContribution 3 ("alice@x", 2), mkContribution 3 ("bob@y", 1)]
        : List Contribution).get ⟨0, by decide⟩).Nlines :=
  C8_contributions_sorted blameW ["f.go"] _ 3 rfl 0 (by decide)

/-- C10: every contribution record returned by the collector has at
least one line, and the reported total is zero exactly when the
contribution sequence is empty. -/
theorem C10_contributions_positive (blame : String → BlameRun)
    (files : List String) (cs : List Contribution) (total : Nat)
    (h : getContributions blame files = .ok (cs, total)) :
    (∀ c ∈ cs, 1 ≤ c.Nlines) ∧ (total = 0 ↔ cs = []) := by
  obtain ⟨m, hc, hcs⟩ := getContributions_ok blame files cs total h
  have hperm : List.Perm (sortContribs (m.map (mkContribution total)))
      (m.map (mkContribution total)) := List.perm_insertionSort _ _
  have hpos : ∀ v ∈ m.map Prod.snd, 1 ≤ v :=
    collectFiles_ok_pos blame files ([], 0) m total hc (by simp)
  have hsum : sumValues m = total :=
    collectFiles_ok_sum blame files ([], 0) m total hc rfl
  constructor
  · intro c hcmem
    have : c ∈ m.map (mkContribution total) := by
      rw [hcs] at hcmem
      exact hperm.mem_iff.mp hcmem
    obtain ⟨p, hp, rfl⟩ := List.mem_map.mp this
    exact hpos p.2 (List.mem_map_of_mem Prod.snd hp)
  · constructor
    · intro ht
      cases hm : m with
      | nil => rw [hcs, hm]; rfl
      | cons q tl =>
        exfalso
        have h1 : 1 ≤ q.2 := hpos q.2 (by rw [hm]; exact List.mem_map_of_mem _ (by simp))
        have h2 : sumValues m = q.2 + sumValues tl := by
          rw [hm]; simp [sumValues]
        omega
    · intro hnil
      have : m.map (mkContribution total) = [] := by
        have h0 : sortContribs (m.map (mkContribution total)) = [] := by
          rw [← hcs]; exact hnil
        have hp2 := hperm
        rw [h0] at hp2
        exact hp2.symm.eq_nil
      have hm : m = [] := List.map_eq_nil_iff.mp this
      rw [← hsum, hm]
      rfl

/-- Witness for C10 at a concrete blame source: both records have at
least one line and the nonzero total 3 matches a nonempty sequence. -/
theorem C10_witness :
    (∀ c ∈ ([mkContribution 3 ("alice@x", 2), mkContribution 3 ("bob@y", 1)]
        : List Contribution), 1 ≤ c.Nlines)
    ∧ ((3 : Nat) = 0 ↔ ([mkContribution 3 ("alice@x", 2), mkContribution 3 ("bob@y", 1)]
        : List Contribution) = []) :=
  C10_contributions_positive blameW ["f.go"] _ 3 rfl

/-! ### Lemmas about the emit-or-collapse renderer loop -/

theorem filterMap_some_comp {α β : Type} (f : α → β) (l : List α) :
    l.filterMap (fun a => some (f a)) = l.map f := by
  induction l with
  | nil => rfl
  | cons a tl ih => simp [List.filterMap_cons, ih]

theorem foldl_sub_percent (l : List Contribution) (a : ℚ) :
    l.foldl (fun acc c => acc - c.Percentage) a
      = a - (l.map Contribution.Percentage).sum := by
  induction l generalizing a with
  | nil => simp
  | cons c tl ih =>
    simp only [List.foldl_cons, List.map_cons, List.sum_cons, ih]
    ring

theorem renderRows_length (p : Contribution → Bool) (cs : List Contribution) :
    (renderRows p cs).1.length + (renderRows p cs).2 = cs.length := by
  induction cs with
  | nil => rfl
  | cons c tl ih =>
    cases tl with
    | nil => rfl
    | cons c2 rest =>
      by_cases hp : p c
      · simp [renderRows, hp]
      · simp only [renderRows, hp, if_false, Bool.false_eq_true,
          List.length_cons] at ih ⊢
        omega

theorem renderRows_no_sat (p : Contribution → Bool) (cs : List Contribution)
    (h : ∀ c ∈ cs, p c = false) : renderRows p cs = (cs, 0) := by
  induction cs with
  | nil => rfl
  | cons c tl ih =>
    cases tl with
    | nil => rfl
    | cons c2 rest =>
      have hp : p c = false := h c (by simp)
      simp only [renderRows, hp, if_false, Bool.false_eq_true]
      rw [ih (fun x hx => h x (List.mem_cons_of_mem c hx))]

theorem renderRows_snd_pos (p : Contribution → Bool) (cs : List Contribution)
    (h : 2 ≤ (cs.filter p).length) : 0 < (renderRows p cs).2 := by
  induction cs with
  | nil => simp at h
  | cons c tl ih =>
    cases tl with
    | nil =>
      by_cases hp : p c <;> simp [hp] at h
    | cons c2 rest =>
      by_cases hp : p c
      · simp [renderRows, hp]
      · rw [List.filter_cons_of_neg (by simp [hp])] at h
        simpa only [renderRows, hp, if_false, Bool.false_eq_true] using ih h

theorem renderRows_last_only (p : Contribution → Bool) (c : Contribution) :
    ∀ cs : List Contribution, cs.filter p = [c] → cs.getLast? = some c →
    renderRows p cs = (cs, 0) := by
  intro cs
  induction cs with
  | nil =>
    intro hf _
    simp at hf
  | cons c0 tl ih =>
    cases tl with
    | nil =>
      intro _ _
      rfl
    | cons c2 rest =>
      intro hf hl
      have hl2 : (c2 :: rest).getLast? = some c := by
        rw [← hl, List.getLast?_cons_cons]
      have hp : p c0 = false := by
        by_cases hp0 : p c0
        · exfalso
          rw [List.filter_cons_of_pos hp0] at hf
          have hc0 : c0 = c := by
            have := List.head_eq_of_cons_eq hf
            exact this
          have hrest : (c2 :: rest).filter p = [] :=
            List.tail_eq_of_cons_eq hf
          have hcmem : c ∈ c2 :: rest := List.mem_of_getLast?_eq_some hl2
          have : c ∈ (c2 :: rest).filter p :=
            List.mem_filter.mpr ⟨hcmem, by rw [← hc0]; exact hp0⟩
          rw [hrest] at this
          simp at this
        · simpa using hp0
      have hf2 : (c2 :: rest).filter p = [c] := by
        rw [List.filter_cons_of_neg (by simp [hp])] at hf
        exact hf
      simp only [renderRows, hp, if_false, Bool.false_eq_true]
      rw [ih hf2 hl2]

theorem renderTable_others_count (p : Contribution → Bool)
    (cs : List Contribution) :
    ((renderTable p cs).filter isOthers).length
      = if 0 < (renderRows p cs).2 then 1 else 0 := by
  simp only [renderTable, List.filter_append, List.length_append]
  have h1 : ((renderRows p cs).1.map (fun c =>
      Row.person c.Email (String.mk (stripDomain c.Email.data))
        c.Nlines c.Percentage)).filter isOthers = [] := by
    rw [List.filter_eq_nil_iff]
    intro r hr
    obtain ⟨x, _, rfl⟩ := List.mem_map.mp hr
    simp [isOthers]
  rw [h1]
  by_cases hrc : 0 < (renderRows p cs).2
  · simp [hrc, isOthers]
  · simp [hrc]

theorem renderTable_person_percentages (p : Contribution → Bool)
    (cs : List Contribution) :
    (renderTable p cs).filterMap personPercentage
      = ((renderRows p cs).1).map Contribution.Percentage := by
  simp only [renderTable, List.filterMap_append, List.filterMap_map]
  have h1 : (renderRows p cs).1.filterMap ((fun r => personPercentage r) ∘ (fun c =>
      Row.person c.Email (String.mk (stripDomain c.Email.data))
        c.Nlines c.Percentage))
      = (renderRows p cs).1.map Contribution.Percentage := by
    have : ∀ l : List Contribution, l.filterMap (fun c =>
        personPercentage (Row.person c.Email (String.mk (stripDomain c.Email.data))
          c.Nlines c.Percentage)) = l.map Contribution.Percentage :=
      fun l => filterMap_some_comp Contribution.Percentage l
    exact this _
  rw [h1]
  by_cases hrc : 0 < (renderRows p cs).2
  · simp [hrc, personPercentage]
  · simp [hrc]

theorem renderTable_person_count (p : Contribution → Bool)
    (cs : List Contribution) :
    ((renderTable p cs).filter (fun r => !isOthers r)).length
      = (renderRows p cs).1.length := by
  simp only [renderTable, List.filter_append, List.length_append]
  have h1 : ((renderRows p cs).1.map (fun c =>
      Row.person c.Email (String.mk (stripDomain c.Email.data))
        c.Nlines c.Percentage)).filter (fun r => !isOthers r)
      = (renderRows p cs).1.map (fun c =>
      Row.person c.Email (String.mk (stripDomain c.Email.data))
        c.Nlines c.Percentage) := by
    rw [List.filter_eq_self]
    intro r hr
    obtain ⟨x, _, rfl⟩ := List.mem_map.mp hr
    simp [isOthers]
  rw [h1, List.length_map]
  by_cases hrc : 0 < (renderRows p cs).2
  · simp [hrc, isOthers]
  · simp [hrc]

theorem renderTable_others_mem (p : Contribution → Bool)
    (cs : List Contribution) (n : Nat) (pct : ℚ)
    (h : Row.others n pct ∈ renderTable p cs) :
    n = (renderRows p cs).2
    ∧ pct = (renderRows p cs).1.foldl (fun acc c => acc - c.Percentage) 100
    ∧ 0 < (renderRows p cs).2 := by
  simp only [renderTable, List.mem_append] at h
  rcases h with h | h
  · exfalso
    obtain ⟨x, _, hx⟩ := List.mem_map.mp h
    cases hx
  · by_cases hrc : 0 < (renderRows p cs).2
    · rw [if_pos hrc] at h
      simp only [List.mem_singleton, Row.others.injEq] at h
      exact ⟨h.1, h.2, hrc⟩
    · rw [if_neg hrc] at h
      simp at h

/-! ### Claims about the long-tail collapse -/

/-- C3: for every sorted contribution list and threshold predicate, the
rendered table has exactly one synthetic "N others" row when at least two
entries are below threshold (equivalently, some below-threshold entry is
not in last position), and zero synthetic rows when no entry is below
threshold, or when the only below-threshold entry is the last one — which
is then emitted individually. -/
theorem C3_collapse_rule (cs : List Contribution) (p : Contribution → Bool)
    (hs : List.Sorted contribGE cs) :
    (2 ≤ (cs.filter p).length →
      ((renderTable p cs).filter isOthers).length = 1)
    ∧ ((cs.filter p).length = 0 →
      ((renderTable p cs).filter isOthers).length = 0)
    ∧ (∀ c, cs.filter p = [c] → cs.getLast? = some c →
      ((renderTable p cs).filter isOthers).length = 0
      ∧ Row.person c.Email (String.mk (stripDomain c.Email.data))
          c.Nlines c.Percentage ∈ renderTable p cs) := by
  refine ⟨?_, ?_, ?_⟩
  · intro h2
    rw [renderTable_others_count, if_pos (renderRows_snd_pos p cs h2)]
  · intro h0
    have hnone : ∀ c ∈ cs, p c = false := by
      rw [List.length_eq_zero, List.filter_eq_nil_iff] at h0
      intro c hc
      simpa using h0 c hc
    rw [renderTable_others_count, renderRows_no_sat p cs hnone]
    simp
  · intro c hf hl
    have heq := renderRows_last_only p c cs hf hl
    constructor
    · rw [renderTable_others_count, heq]
      simp
    · have hcmem : c ∈ cs := by
        have : c ∈ cs.filter p := by
          rw [hf]
          exact List.mem_singleton_self c
        exact (List.mem_filter.mp this).1
      simp only [renderTable, heq]
      apply List.mem_append_left
      exact List.mem_map_of_mem _ hcmem

/-- Witness for C3 at a concrete sorted list: two of the four entries in
`csW` fall below the people threshold, and the table has exactly one
synthetic row. -/
theorem C3_witness :
    ((renderTable peoplePred csW).filter isOthers).length = 1 :=
  (C3_collapse_rule csW peoplePred (by decide)).1 (by decide)

/-- C4: whenever the rendered table contains a synthetic "N others" row,
its percentage equals 100 minus the sum of the percentage cells of the
individually emitted person rows (not a value recomputed from raw line
counts), and its N equals the number of contribution entries not
individually listed. -/
theorem C4_others_row (p : Contribution → Bool) (cs : List Contribution)
    (n : Nat) (pct : ℚ) (h : Row.others n pct ∈ renderTable p cs) :
    pct = 100 - ((renderTable p cs).filterMap personPercentage).sum
    ∧ n = cs.length - ((renderTable p cs).filter (fun r => !isOthers r)).length := by
  obtain ⟨hn, hpct, _⟩ := renderTable_others_mem p cs n pct h
  constructor
  · rw [hpct, foldl_sub_percent, renderTable_person_percentages]
  · rw [hn, renderTable_person_count]
    have := renderRows_length p cs
    omega

/-- Witness for C4 at a concrete list: the synthetic row of `csW` under
the people threshold shows 2 others and 100 − (50 + 40) = 10 percent. -/
theorem C4_witness :
    ((10 : ℚ) = 100 - ((renderTable peoplePred csW).filterMap personPercentage).sum)
    ∧ (2 = csW.length
        - ((renderTable peoplePred csW).filter (fun r => !isOthers r)).length) := by
  have hmem : Row.others 2 (100 - 50 - 40) ∈ renderTable peoplePred csW :=
    List.mem_append_right _ (List.mem_singleton_self _)
  have h := C4_others_row peoplePred csW 2 (100 - 50 - 40) hmem
  have h10 : (10 : ℚ) = 100 - 50 - 40 := by norm_num
  exact ⟨by rw [h10]; exact h.1, h.2⟩

/-! ### Claims about the ignore-pattern loading -/

theorem any_comment_eq (l : List Char) :
    ((List.range l.length).any
      (fun k => (l.take k).all goIsSpace && l.getD k 'a' == '#'))
      = isCommentLine l := by
  induction l with
  | nil => rfl
  | cons c tl ih =>
    rw [List.length_cons, List.range_succ_eq_map]
    simp only [List.any_cons, List.any_map, Function.comp]
    by_cases hc : c == '#'
    · have hc' : c = '#' := by simpa using hc
      subst hc'
      simp [isCommentLine, List.dropWhile_cons, goIsSpace]
    · by_cases hsp : goIsSpace c
      · have h0 : (((c :: tl).take 0).all goIsSpace
            && ((c :: tl).getD 0 'a' == '#')) = false := by
          simp [hc]
        rw [h0, Bool.false_or]
        have hany : (List.range tl.length).any
            ((fun k => ((c :: tl).take k).all goIsSpace
              && (c :: tl).getD k 'a' == '#') ∘ Nat.succ)
            = (List.range tl.length).any
              (fun k => (tl.take k).all goIsSpace && tl.getD k 'a' == '#') := by
          apply congrArg
          funext k
          simp [Function.comp, Nat.succ_eq_add_one, List.take_succ_cons, hsp]
        rw [hany, ih]
        simp [isCommentLine, List.dropWhile_cons, hsp]
      · have h0 : (((c :: tl).take 0).all goIsSpace
            && ((c :: tl).getD 0 'a' == '#')) = false := by
          simp [hc]
        rw [h0, Bool.false_or]
        have hany : (List.range tl.length).any
            ((fun k => ((c :: tl).take k).all goIsSpace
              && (c :: tl).getD k 'a' == '#') ∘ Nat.succ)
            = (List.range tl.length).any (fun _ => false) := by
          apply congrArg
          funext k
          simp [Function.comp, Nat.succ_eq_add_one, List.take_succ_cons, hsp]
        rw [hany]
        have : isCommentLine (c :: tl) = false := by
          simp [isCommentLine, List.dropWhile_cons, hsp, hc]
        rw [this]
        simp

theorem ignoreLineMatches_iff (l : List Char) :
    ignoreLineMatches l
      = (isCommentLine l || (decide (1 ≤ l.length) && l.all goIsSpace)) := by
  unfold ignoreLineMatches
  rw [any_comment_eq]

/-- C5 counterexample: the empty line is blank (all of its zero
characters are whitespace), yet the skip regexp `^(\s*#|\s+$)` does not
match it (the second alternative needs at least one whitespace
character), so loading a file whose lines are `""` and `"p"` returns
**both** lines as patterns — the claim says the blank line is skipped. -/
theorem C5_counterexample :
    "".data.all goIsSpace = true
    ∧ ignoreLineMatches "".data = false
    ∧ getIgnoreSettings ["", "p"] = ["", "p"] := by
  refine ⟨rfl, rfl, ?_⟩
  rfl

/-- C5 (amended): when the ignore-pattern lines are loaded, a line is
skipped exactly when its first non-whitespace character is the comment
marker `'#'`, or when it consists of **at least one** whitespace
character and nothing else; in particular the empty line is *not*
skipped, and every non-skipped line is returned as a pattern in order. -/
theorem C5_ignore_lines_amended (lines : List String) :
    getIgnoreSettings lines
      = lines.filter (fun l => !(isCommentLine l.data
          || (decide (1 ≤ l.data.length) && l.data.all goIsSpace))) := by
  unfold getIgnoreSettings
  apply List.filter_congr
  intro l _
  rw [ignoreLineMatches_iff]

/-! ### Claims about the glob ignore filter -/

theorem matchAny_ok (doublestarMatch : String → String → Except String Bool)
    (patterns : List String) (f : String)
    (h : ∀ p ∈ patterns, ∃ b, doublestarMatch p f = .ok b) :
    matchAny doublestarMatch patterns f
      = .ok (patterns.any (fun p => isOkTrue (doublestarMatch p f))) := by
  induction patterns with
  | nil => rfl
  | cons p ps ih =>
    obtain ⟨b, hb⟩ := h p (by simp)
    cases b
    · simp only [matchAny, hb, List.any_cons]
      rw [ih (fun q hq => h q (List.mem_cons_of_mem p hq))]
      simp [isOkTrue, hb]
    · simp [matchAny, hb, List.any_cons, isOkTrue]

/-- C6: when no pattern-match invocation fails, the ignore filter returns
exactly the files that match none of the patterns (a file is excluded if
and only if some pattern matches it), in their original relative order
(the result is the order-preserving filter of the input, hence a sublist
of it). -/
theorem C6_exclude_filter (doublestarMatch : String → String → Except String Bool)
    (ignorePatterns files : List String)
    (h : ∀ p ∈ ignorePatterns, ∀ f ∈ files, ∃ b, doublestarMatch p f = .ok b) :
    excludeWithGlob doublestarMatch ignorePatterns files
      = .ok (files.filter
          (fun f => !(ignorePatterns.any (fun p => isOkTrue (doublestarMatch p f)))))
    ∧ ∀ res, excludeWithGlob doublestarMatch ignorePatterns files = .ok res →
        List.Sublist res files := by
  have key : ∀ fl : List String,
      (∀ p ∈ ignorePatterns, ∀ f ∈ fl, ∃ b, doublestarMatch p f = .ok b) →
      excludeWithGlob doublestarMatch ignorePatterns fl
        = .ok (fl.filter
            (fun f => !(ignorePatterns.any (fun p => isOkTrue (doublestarMatch p f))))) := by
    intro fl
    induction fl with
    | nil => intro _; rfl
    | cons f fs ih =>
      intro hfl
      have hm := matchAny_ok doublestarMatch ignorePatterns f
        (fun p hp => hfl p hp f (by simp))
      have ihr := ih (fun p hp g hg => hfl p hp g (List.mem_cons_of_mem f hg))
      by_cases hany : ignorePatterns.any (fun p => isOkTrue (doublestarMatch p f))
      · rw [List.filter_cons_of_neg (by simp [hany])]
        simp only [excludeWithGlob, hm, hany]
        exact ihr
      · rw [List.filter_cons_of_pos (by simp [hany])]
        simp only [excludeWithGlob, hm, Bool.not_eq_true] at hany ⊢
        rw [hany, ihr]
  refine ⟨key files h, ?_⟩
  intro res hres
  rw [key files h] at hres
  simp only [Except.ok.injEq] at hres
  rw [← hres]
  exact List.filter_sublist files

/-- Witness for C6 at a concrete matcher (a pattern matches exactly the
file equal to it): the file `vendor` is excluded and the other files are
kept in order. -/
theorem C6_witness :
    excludeWithGlob mFnW ["vendor"] ["a.go", "vendor", "b.go"]
      = .ok ["a.go", "b.go"] := by
  have h := C6_exclude_filter mFnW ["vendor"] ["a.go", "vendor", "b.go"]
    (by intro p hp f hf; exact ⟨f == p, rfl⟩)
  rw [h.1]
  rfl

/-! ### Claims about the cross-author rollup -/

theorem foldl_bump_sum (cs : List Contribution) (m0 : List (String × Nat)) :
    sumValues (cs.foldl (fun m c => bumpCountBy m c.Email c.Nlines) m0)
      = sumValues m0 + (cs.map Contribution.Nlines).sum := by
  induction cs generalizing m0 with
  | nil => simp
  | cons c tl ih =>
    simp only [List.foldl_cons, List.map_cons, List.sum_cons]
    rw [ih, bumpCountBy_sum]
    omega

theorem rollupMap_sum_aux (stats : List LanguageStat) (m0 : List (String × Nat)) :
    sumValues (stats.foldl (fun m stat =>
        stat.Contributions.foldl (fun m c => bumpCountBy m c.Email c.Nlines) m) m0)
      = sumValues m0
        + (stats.map (fun s => (s.Contributions.map Contribution.Nlines).sum)).sum := by
  induction stats generalizing m0 with
  | nil => simp
  | cons s tl ih =>
    simp only [List.foldl_cons, List.map_cons, List.sum_cons]
    rw [ih, foldl_bump_sum]
    omega

theorem grandTotal_eq_sum (stats : List LanguageStat) :
    grandTotal stats = (stats.map LanguageStat.TotalLines).sum := by
  have key : ∀ (l : List LanguageStat) (a : Nat),
      l.foldl (fun acc s => acc + s.TotalLines) a
        = a + (l.map LanguageStat.TotalLines).sum := by
    intro l
    induction l with
    | nil => intro a; simp
    | cons s tl ih =>
      intro a
      simp only [List.foldl_cons, List.map_cons, List.sum_cons]
      rw [ih]
      omega
  simpa [grandTotal] using key stats 0

theorem sum_nat_zero_all (l : List Nat) (h : l.sum = 0) : ∀ x ∈ l, x = 0 := by
  induction l with
  | nil => simp
  | cons a tl ih =>
    simp only [List.sum_cons] at h
    intro x hx
    rcases List.mem_cons.mp hx with rfl | hx
    · omega
    · exact ih (by omega) x hx

theorem rollupMap_nil_of_empty (stats : List LanguageStat)
    (h : ∀ s ∈ stats, s.Contributions = []) : rollupMap stats = [] := by
  have key : ∀ (l : List LanguageStat) (m0 : List (String × Nat)),
      (∀ s ∈ l, s.Contributions = []) →
      l.foldl (fun m stat =>
        stat.Contributions.foldl (fun m c => bumpCountBy m c.Email c.Nlines) m) m0
        = m0 := by
    intro l
    induction l with
    | nil => intro m0 _; rfl
    | cons s tl ih =>
      intro m0 hl
      simp only [List.foldl_cons]
      rw [hl s (by simp), List.foldl_nil]
      exact ih m0 (fun q hq => hl q (List.mem_cons_of_mem s hq))
  exact key stats [] h

/-- C7: for every result set satisfying the data-model invariants
established by the collector (each bucket's contribution line counts sum
to its `TotalLines`, claim C2, and every record has at least one line,
claim C10), the cross-author rollup of `peopleProfile` satisfies: the sum
of the per-author line counts over all global records equals the sum of
`TotalLines` over all buckets, and the rollup is empty when that grand
total is zero. -/
theorem C7_rollup_total (stats : List LanguageStat)
    (h1 : ∀ s ∈ stats, (s.Contributions.map Contribution.Nlines).sum = s.TotalLines)
    (h2 : ∀ s ∈ stats, ∀ c ∈ s.Contributions, 1 ≤ c.Nlines) :
    ((peopleContributions stats).map Contribution.Nlines).sum = grandTotal stats
    ∧ (grandTotal stats = 0 → peopleContributions stats = []) := by
  have hsum : ((peopleContributions stats).map Contribution.Nlines).sum
      = sumValues (rollupMap stats) := by
    unfold peopleContributions
    have hperm : List.Perm
        (sortContribs ((rollupMap stats).map (mkContribution (grandTotal stats))))
        ((rollupMap stats).map (mkContribution (grandTotal stats))) :=
      List.perm_insertionSort _ _
    rw [(hperm.map Contribution.Nlines).sum_eq, List.map_map]
    rfl
  have hroll : sumValues (rollupMap stats)
      = (stats.map (fun s => (s.Contributions.map Contribution.Nlines).sum)).sum := by
    have := rollupMap_sum_aux stats []
    simpa [rollupMap, sumValues] using this
  have hmapeq : stats.map (fun s => (s.Contributions.map Contribution.Nlines).sum)
      = stats.map LanguageStat.TotalLines :=
    List.map_congr_left (fun s hs => h1 s hs)
  constructor
  · rw [hsum, hroll, hmapeq, grandTotal_eq_sum]
  · intro h0
    have hTL : ∀ s ∈ stats, s.TotalLines = 0 := by
      rw [grandTotal_eq_sum] at h0
      intro s hs
      exact sum_nat_zero_all _ h0 _ (List.mem_map_of_mem _ hs)
    have hempty : ∀ s ∈ stats, s.Contributions = [] := by
      intro s hs
      cases hcs : s.Contributions with
      | nil => rfl
      | cons c tl =>
        exfalso
        have hsum0 : (s.Contributions.map Contribution.Nlines).sum = 0 := by
          rw [h1 s hs]
          exact hTL s hs
        rw [hcs] at hsum0
        simp only [List.map_cons, List.sum_cons] at hsum0
        have := h2 s hs c (by rw [hcs]; simp)
        omega
    unfold peopleContributions
    rw [rollupMap_nil_of_empty stats hempty]
    rfl

/-- Witness for C7 at a concrete result set: the Go bucket (3 lines, two
authors) and the Markdown bucket (1 line) roll up to 4 global lines. -/
theorem C7_witness :
    ((peopleContributions statsW).map Contribution.Nlines).sum = grandTotal statsW
    ∧ (grandTotal statsW = 0 → peopleContributions statsW = []) :=
  C7_rollup_total statsW (by decide) (by decide)

/-! ### Claims about the domain-stripping identity cell -/

/-- C9 counterexample: the identity `"@foo"` contains `'@'`, and the
prefix up to and including its last `'@'` (at index 0) is `"@"`, yet
`stripDomain` returns the empty string — the regexp `^.+@` needs at least
one character before the `'@'` — so the claim's description of
`'@'`-containing identities is false. -/
theorem C9_counterexample :
    '@' ∈ "@foo".data
    ∧ "@foo".data.take (0 + 1) = ['@']
    ∧ stripDomain "@foo".data = []
    ∧ (['@'] : List Char) ≠ [] := by
  refine ⟨by decide, by decide, by decide, by decide⟩

/-- C9 (amended): for every identity without a newline character, when
the identity has no `'@'`, or its only `'@'` is the leading character,
`stripDomain` returns the empty string (so the visible name cell is
empty); when the last `'@'` sits at a position `k + 1 ≥ 1` (i.e. at
least one character precedes it), `stripDomain` returns the prefix up to
and including that last `'@'`.  Moreover, in every rendered table the
visible name cells are exactly `stripDomain` of the e-mails of the
individually emitted entries. -/
theorem C9_stripDomain_amended :
    (∀ s : List Char, '\n' ∉ s →
      (((findAts s).getLast? = none ∨ (findAts s).getLast? = some 0) →
        stripDomain s = [])
      ∧ (∀ k : Nat, (findAts s).getLast? = some (k + 1) →
        stripDomain s = s.take (k + 2)))
    ∧ (∀ (p : Contribution → Bool) (cs : List Contribution),
        (renderTable p cs).filterMap personIdentity
          = ((renderRows p cs).1).map
              (fun c => String.mk (stripDomain c.Email.data))) := by
  constructor
  · intro s h
    have hfilter : (findAts s).filter
        (fun i => decide (1 ≤ i) && (s.take i).all (fun c => !(c == '\n')))
        = (findAts s).filter (fun i => decide (1 ≤ i)) := by
      apply List.filter_congr
      intro i _
      have hall : (s.take i).all (fun c => !(c == '\n')) = true := by
        rw [List.all_eq_true]
        intro c hc
        have hcs : c ∈ s := List.take_subset i s hc
        have : c ≠ '\n' := fun heq => h (heq ▸ hcs)
        simp [this]
      rw [hall, Bool.and_true]
    have hpw : List.Pairwise (· < ·) (findAts s) :=
      (List.pairwise_lt_range s.length).filter _
    constructor
    · intro hcase
      rcases hcase with hnone | hzero
      · have hnil : findAts s = [] := List.getLast?_eq_none_iff.mp hnone
        simp only [stripDomain, hfilter, hnil, List.filter_nil]
        rfl
      · obtain ⟨l', hsplit⟩ := List.getLast?_eq_some_iff.mp hzero
        have hl' : l' = [] := by
          rw [hsplit] at hpw
          rw [List.eq_nil_iff_forall_not_mem]
          intro x hx
          have := (List.pairwise_append.mp hpw).2.2 x hx 0 (by simp)
          omega
        subst hl'
        have hone : findAts s = [0] := by simpa using hsplit
        simp only [stripDomain, hfilter, hone]
        rfl
    · intro k hk
      obtain ⟨l', hsplit⟩ := List.getLast?_eq_some_iff.mp hk
      have hfk : (findAts s).filter (fun i => decide (1 ≤ i))
          = l'.filter (fun i => decide (1 ≤ i)) ++ [k + 1] := by
        rw [hsplit, List.filter_append]
        congr 1
        simp
      simp only [stripDomain, hfilter, hfk, List.getLast?_concat]
  · intro p cs
    simp only [renderTable, List.filterMap_append, List.filterMap_map]
    have h1 : (renderRows p cs).1.filterMap ((fun r => personIdentity r) ∘ (fun c =>
        Row.person c.Email (String.mk (stripDomain c.Email.data))
          c.Nlines c.Percentage))
        = (renderRows p cs).1.map (fun c => String.mk (stripDomain c.Email.data)) := by
      have key : ∀ l : List Contribution, l.filterMap (fun c =>
          personIdentity (Row.person c.Email (String.mk (stripDomain c.Email.data))
            c.Nlines c.Percentage))
          = l.map (fun c => String.mk (stripDomain c.Email.data)) :=
        fun l => filterMap_some_comp _ l
      exact key _
    rw [h1]
    by_cases hrc : 0 < (renderRows p cs).2
    · simp [hrc, personIdentity]
    · simp [hrc]

/-- Witness for C9 at the concrete identity `"a@b@c"`: the last `'@'`
sits at index 3, so the stripped identity is the four-character prefix
`"a@b@"`. -/
theorem C9_witness :
    stripDomain "a@b@c".data = "a@b@c".data.take (2 + 2) :=
  ((C9_stripDomain_amended.1 "a@b@c".data (by decide)).2) 2 (by decide)

end Contributors
